import Mathlib

/-!
Shallow embedding of the spreadsheet formula engine (`src/sheet.py`,
`src/expression_parser.py`, `src/math_operator.py`, `src/node.py`) used to check
the specification's claims.

Conventions of the embedding:
* Python strings are `List Char`.
* Positions are pairs of Python integers, modelled as `Int × Int` (`try_update`
  accepts arbitrary, possibly negative, row/column indices).
* Python `float` values are modelled as `ℚ`: every numeric computation exercised
  by a claim (small-integer arithmetic) is exact in IEEE double precision, where
  `ℚ` and `float` agree.  IEEE rounding of non-representable decimals and the
  transcendental `math.sin` are outside the rational fragment and are not the
  subject of any claim.
* Python exceptions are modelled with `Except Err`; `try_update` catches every
  exception class and maps it to a `FailureReason`, exactly as the source does.
* Python `dict`s are association lists with dict semantics (`Store`): insertion
  replaces in place or appends, preserving insertion order.
* `networkx.DiGraph` is a node list plus an edge list (`DiGraph`); the helpers
  mirror the observable behaviour of the `networkx` operations the source calls.
-/

/-- Equality of `Except` results is decidable (needed to `decide` concrete
runs of the fallible operations below). -/
instance {ε α : Type} [DecidableEq ε] [DecidableEq α] :
    DecidableEq (Except ε α) := fun x y =>
  match x, y with
  | .error a, .error b =>
    if h : a = b then isTrue (by rw [h])
    else isFalse (fun hh => h (Except.error.inj hh))
  | .ok a, .ok b =>
    if h : a = b then isTrue (by rw [h])
    else isFalse (fun hh => h (Except.ok.inj hh))
  | .error _, .ok _ => isFalse (fun hh => Except.noConfusion hh)
  | .ok _, .error _ => isFalse (fun hh => Except.noConfusion hh)

namespace Spreadsheet

/-- A sheet position `(row_index, column_index)`, both Python ints. -/
abbrev Pos := Int × Int

/-! ### Python dict: association lists with dict semantics -/

/-- A Python `dict` keyed by positions: an association list in insertion order. -/
abbrev Store (α : Type) := List (Pos × α)

namespace Store

/-- `d.get(k)` / `k in d`: first binding of the key, if any. -/
def lookup : Store α → Pos → Option α
  | [], _ => none
  | e :: t, k => if e.1 = k then some e.2 else lookup t k

/-- `d[k] = v`: replace the value in place if the key exists, else append
(Python dicts keep the original insertion position of an overwritten key). -/
def insert : Store α → Pos → α → Store α
  | [], k, v => [(k, v)]
  | e :: t, k, v => if e.1 = k then (k, v) :: t else e :: insert t k v

/-- `d.pop(k, None)`: remove the key if present. -/
def erase : Store α → Pos → Store α
  | [], _ => []
  | e :: t, k => if e.1 = k then erase t k else e :: erase t k

/-- `d.update(l)`: insert every binding of `l` in order. -/
def insertAll (s l : Store α) : Store α :=
  l.foldl (fun acc e => acc.insert e.1 e.2) s

theorem lookup_insert_self (s : Store α) (k : Pos) (v : α) :
    (s.insert k v).lookup k = some v := by
  induction s with
  | nil => simp [insert, lookup]
  | cons e t ih =>
    by_cases h : e.1 = k
    · simp [insert, lookup, h]
    · simp [insert, lookup, h, ih]

theorem lookup_insert_ne (s : Store α) (k q : Pos) (v : α) (h : q ≠ k) :
    (s.insert k v).lookup q = s.lookup q := by
  have h' : ¬ (k = q) := Ne.symm h
  induction s with
  | nil => simp [insert, lookup, h']
  | cons e t ih =>
    by_cases he : e.1 = k
    · have hq : ¬ e.1 = q := by rw [he]; exact h'
      simp [insert, lookup, he, hq, h']
    · by_cases hq : e.1 = q
      · simp [insert, lookup, he, hq, h, h']
      · simp [insert, lookup, he, hq, h, h', ih]

theorem lookup_erase_ne (s : Store α) (k q : Pos) (h : q ≠ k) :
    (s.erase k).lookup q = s.lookup q := by
  have h' : ¬ (k = q) := Ne.symm h
  induction s with
  | nil => simp [erase]
  | cons e t ih =>
    by_cases he : e.1 = k
    · have hq : ¬ e.1 = q := by rw [he]; exact h'
      simp [erase, lookup, he, hq, h', ih]
    · by_cases hq : e.1 = q
      · simp [erase, lookup, he, hq, h, h']
      · simp [erase, lookup, he, hq, ih]

theorem erase_of_lookup_none (s : Store α) (k : Pos) (h : s.lookup k = none) :
    s.erase k = s := by
  induction s with
  | nil => rfl
  | cons e t ih =>
    by_cases he : e.1 = k
    · simp [lookup, he] at h
    · simp only [lookup, he, if_false] at h
      simp [erase, he, ih h]

theorem mem_keys_insert (s : Store α) (k k' : Pos) (v : α)
    (h : k ∈ s.map Prod.fst) : k ∈ (s.insert k' v).map Prod.fst := by
  induction s with
  | nil => simp at h
  | cons e t ih =>
    by_cases he : e.1 = k'
    · simp only [List.map_cons, List.mem_cons] at h
      rcases h with h | h
      · have hk : k = k' := by rw [h, he]
        simp [insert, he, hk]
      · simp [insert, he, h]
    · simp only [List.map_cons, List.mem_cons] at h
      rcases h with h | h
      · simp [insert, he, h]
      · simp [insert, he, ih h]

theorem self_mem_keys_insert (s : Store α) (k : Pos) (v : α) :
    k ∈ (s.insert k v).map Prod.fst := by
  induction s with
  | nil => simp [insert]
  | cons e t ih =>
    by_cases he : e.1 = k
    · simp [insert, he]
    · simp [insert, he, ih]

theorem lookup_insertAll_of_not_mem (s : Store α) (l : Store α) (q : Pos)
    (h : q ∉ l.map Prod.fst) : (s.insertAll l).lookup q = s.lookup q := by
  induction l generalizing s with
  | nil => rfl
  | cons e t ih =>
    simp only [List.map_cons, List.mem_cons, not_or] at h
    simp only [insertAll, List.foldl_cons]
    rw [show (List.foldl (fun acc e => Store.insert acc e.1 e.2)
      (s.insert e.1 e.2) t) = (s.insert e.1 e.2).insertAll t from rfl]
    rw [ih _ h.2, lookup_insert_ne _ _ _ _ h.1]

end Store

/-! ### `networkx.DiGraph` fragment used by the sheet -/

/-- A directed graph: node list (in insertion order) plus edge list.
`networkx` keeps a node alive when its edges are removed, which is essential
to the behaviour verified below. -/
structure DiGraph where
  nodes : List Pos
  edges : List (Pos × Pos)
deriving DecidableEq, Repr

namespace DiGraph

/-- The empty graph (`nx.DiGraph()`). -/
def empty : DiGraph := ⟨[], []⟩

def addNode (g : DiGraph) (p : Pos) : DiGraph :=
  if p ∈ g.nodes then g else { g with nodes := g.nodes ++ [p] }

/-- `G.add_edges_from`: adding an edge also adds both endpoints as nodes. -/
def addEdge (g : DiGraph) (e : Pos × Pos) : DiGraph :=
  if e ∈ ((g.addNode e.1).addNode e.2).edges then (g.addNode e.1).addNode e.2
  else { (g.addNode e.1).addNode e.2 with
         edges := ((g.addNode e.1).addNode e.2).edges ++ [e] }

def addEdges (g : DiGraph) (es : List (Pos × Pos)) : DiGraph :=
  es.foldl addEdge g

/-- `G.remove_edges_from(G.out_edges(p))`: drops `p`'s outgoing edges and
keeps every node (including now-isolated ones). -/
def removeOutEdges (g : DiGraph) (p : Pos) : DiGraph :=
  { g with edges := g.edges.filter (fun e => decide (e.1 ≠ p)) }

/-- `Sheet.__remove_isolates`: the source computes `nx.isolates(g)` (a list of
positions) but then calls `remove_edges_from` — not `remove_nodes_from` — on it.
`remove_edges_from` unpacks each position pair `(r, c)` as a candidate edge
between the integer endpoints `r` and `c`; no such edge can exist in a graph
whose nodes are pairs, so nothing is removed and the graph is returned
unchanged. -/
def removeIsolates (g : DiGraph) : DiGraph := g

/-- One step of Kahn's algorithm, as performed by `nx.topological_sort`:
repeatedly emit a remaining node that has no incoming edge from a remaining
node; report failure (`NetworkXUnfeasible`) if none exists. -/
def kahnAux (edges : List (Pos × Pos)) : Nat → List Pos → Option (List Pos)
  | _, [] => some []
  | 0, _ :: _ => none
  | fuel + 1, r :: rs =>
    match (r :: rs).find? (fun v => (r :: rs).all (fun u => !(decide ((u, v) ∈ edges)))) with
    | none => none
    | some v => (kahnAux edges fuel ((r :: rs).erase v)).map (v :: ·)

/-- `list(nx.topological_sort(g))`: `some order` on a DAG, `none`
(`NetworkXUnfeasible`) if the graph has a cycle. -/
def topologicalSort (g : DiGraph) : Option (List Pos) :=
  kahnAux g.edges g.nodes.length g.nodes

/-- Depth-first reachability with explicit fuel (the fuel passed by callers is
an upper bound on the work, so it is never exhausted on well-formed input). -/
def reachAux (edges : List (Pos × Pos)) : Nat → List Pos → List Pos → List Pos
  | 0, _, visited => visited
  | _ + 1, [], visited => visited
  | fuel + 1, x :: rest, visited =>
    if x ∈ visited then reachAux edges fuel rest visited
    else
      reachAux edges fuel
        (((edges.filter (fun e => decide (e.1 = x))).map (·.2)) ++ rest)
        (visited ++ [x])

/-- `nx.descendants(g.reverse(), p)`: the positions with a directed path *to*
`p` in `g` (the source itself excluded). -/
def descendantsOfReverse (g : DiGraph) (p : Pos) : List Pos :=
  (reachAux (g.edges.map (fun e => (e.2, e.1)))
      ((g.nodes.length + g.edges.length + 1) * (g.edges.length + 1)).succ
      [p] []).filter (fun v => decide (v ≠ p))

/-- A cycle in `g`, in its standard "every vertex of a nonempty set has an
in-neighbour inside the set" form (a nonempty list of graph nodes each of which
receives an edge from another member). -/
def HasCycle (g : DiGraph) : Prop :=
  ∃ C : List Pos, C ≠ [] ∧ (∀ v ∈ C, v ∈ g.nodes) ∧
    ∀ v ∈ C, ∃ u ∈ C, (u, v) ∈ g.edges

theorem kahnAux_none_of_cycle (edges : List (Pos × Pos)) (C : List Pos)
    (hne : C ≠ []) (hcyc : ∀ v ∈ C, ∃ u ∈ C, (u, v) ∈ edges) :
    ∀ fuel remaining, (∀ v ∈ C, v ∈ remaining) →
      kahnAux edges fuel remaining = none := by
  intro fuel
  induction fuel with
  | zero =>
    intro remaining hsub
    match remaining with
    | [] =>
      rcases List.exists_mem_of_ne_nil C hne with ⟨v, hv⟩
      exact absurd (hsub v hv) (List.not_mem_nil v)
    | r :: rs => rfl
  | succ fuel ih =>
    intro remaining hsub
    match remaining with
    | [] =>
      rcases List.exists_mem_of_ne_nil C hne with ⟨v, hv⟩
      exact absurd (hsub v hv) (List.not_mem_nil v)
    | r :: rs =>
      simp only [kahnAux]
      match hfind : (r :: rs).find?
          (fun v => (r :: rs).all (fun u => !(decide ((u, v) ∈ edges)))) with
      | none => rfl
      | some v =>
        have hvpred := List.find?_some hfind
        have hvC : v ∉ C := by
          intro hvC
          rcases hcyc v hvC with ⟨u, huC, hedge⟩
          have hu : u ∈ r :: rs := hsub u huC
          have := (List.all_eq_true.mp hvpred) u hu
          simp [hedge] at this
        have hsub' : ∀ w ∈ C, w ∈ (r :: rs).erase v := by
          intro w hw
          have hwv : w ≠ v := by
            intro hh
            rw [hh] at hw
            exact hvC hw
          exact (List.mem_erase_of_ne hwv).mpr (hsub w hw)
        simp [ih _ hsub']

/-- A cycle anywhere in the graph makes `nx.topological_sort` raise. -/
theorem topologicalSort_eq_none_of_hasCycle (g : DiGraph) (h : HasCycle g) :
    g.topologicalSort = none := by
  rcases h with ⟨C, hne, hnodes, hcyc⟩
  exact kahnAux_none_of_cycle g.edges C hne hcyc _ g.nodes hnodes

theorem reachAux_nil (edges : List (Pos × Pos)) (fuel : Nat)
    (visited : List Pos) : reachAux edges fuel [] visited = visited := by
  cases fuel <;> rfl

/-- If nothing points at `p`, `p` has no reverse-graph descendants. -/
theorem descendantsOfReverse_eq_nil (g : DiGraph) (p : Pos)
    (h : ∀ u, (u, p) ∉ g.edges) : g.descendantsOfReverse p = [] := by
  have hfilter :
      (g.edges.map (fun e => (e.2, e.1))).filter (fun e => decide (e.1 = p)) = [] := by
    apply List.filter_eq_nil_iff.mpr
    intro a ha
    rcases List.mem_map.mp ha with ⟨⟨u, w⟩, he, rfl⟩
    simp only [decide_eq_true_eq]
    intro hfst
    rw [hfst] at he
    exact h u he
  unfold descendantsOfReverse
  rw [show ∀ n : Nat, n.succ = n + 1 from fun _ => rfl]
  simp only [reachAux, List.not_mem_nil, if_false, hfilter, List.map_nil,
    List.nil_append]
  simp

end DiGraph

/-! ### Failure taxonomy -/

/-- The exception classes `try_update` catches, in the embedding. -/
inductive Err where
  | badName
  | evaluation
  | parser
  | circular
  | zeroDiv
  | unexpected
deriving DecidableEq, Repr

/-- `failure_reason.FailureReason`. -/
inductive FailureReason where
  | DEPENDENCIES_CYCLE
  | COULD_NOT_PARSE
  | UNEXPECTED_EXCEPTION
  | EVALUATION_FAILURE
  | BAD_NAME_REFERENCE
  | ZERO_DIVISION
deriving DecidableEq, Repr

/-- The `except` clauses of `Sheet.try_update`. -/
def Err.toReason : Err → FailureReason
  | .badName => .BAD_NAME_REFERENCE
  | .evaluation => .EVALUATION_FAILURE
  | .parser => .COULD_NOT_PARSE
  | .circular => .DEPENDENCIES_CYCLE
  | .zeroDiv => .ZERO_DIVISION
  | .unexpected => .UNEXPECTED_EXCEPTION

/-! ### Characters, decimal numbers, coordinate algebra -/

/-- The `[A-Z]` character class of the cell-name regex. -/
def isUpperAZ (c : Char) : Bool :=
  65 ≤ c.toNat && c.toNat ≤ 90

/-- The `[0-9]` character class. -/
def isDigitC (c : Char) : Bool :=
  48 ≤ c.toNat && c.toNat ≤ 57

/-- Value of a decimal digit character. -/
def digitVal (c : Char) : Nat := c.toNat - 48

/-- `ord(char) - ord('A')`. -/
def letterVal (c : Char) : Nat := c.toNat - 65

/-- `chr(n + 48)`. -/
def digitChar (n : Nat) : Char := Char.ofNat (n + 48)

/-- `chr(n + 65)` (`Sheet.__A_ASCII = 65`). -/
def letterChar (n : Nat) : Char := Char.ofNat (n + 65)

/-- `int(s)` on a string of decimal digits. -/
def parseNat (ds : List Char) : Nat :=
  ds.foldl (fun acc c => acc * 10 + digitVal c) 0

/-- `str(n)` for a natural number, with structural fuel (`n + 1` steps always
suffice since the argument shrinks by a factor of ten each step). -/
def toDecimalAux : Nat → Nat → List Char
  | 0, _ => []
  | fuel + 1, n =>
    if n < 10 then [digitChar n]
    else toDecimalAux fuel (n / 10) ++ [digitChar (n % 10)]

def toDecimal (n : Nat) : List Char := toDecimalAux (n + 1) n

theorem toDecimalAux_stable (n : Nat) : ∀ f₁ f₂, n < f₁ → n < f₂ →
    toDecimalAux f₁ n = toDecimalAux f₂ n := by
  induction n using Nat.strong_induction_on with
  | _ n ih =>
    intro f₁ f₂ h₁ h₂
    match f₁, f₂ with
    | g₁ + 1, g₂ + 1 =>
      by_cases hn : n < 10
      · simp [toDecimalAux, hn]
      · have hdiv : n / 10 < n := Nat.div_lt_self (by omega) (by omega)
        simp only [toDecimalAux, hn, if_false]
        rw [ih (n / 10) hdiv g₁ g₂ (by omega) (by omega)]

theorem toDecimal_lt10 (n : Nat) (h : n < 10) : toDecimal n = [digitChar n] := by
  simp [toDecimal, toDecimalAux, h]

theorem toDecimal_ge10 (n : Nat) (h : 10 ≤ n) :
    toDecimal n = toDecimal (n / 10) ++ [digitChar (n % 10)] := by
  have hdiv : n / 10 < n := Nat.div_lt_self (by omega) (by omega)
  show toDecimalAux (n + 1) n = toDecimalAux (n / 10 + 1) (n / 10) ++ [digitChar (n % 10)]
  rw [show toDecimalAux (n + 1) n = if n < 10 then [digitChar n]
      else toDecimalAux n (n / 10) ++ [digitChar (n % 10)] from rfl]
  rw [if_neg (Nat.not_lt.mpr h)]
  rw [toDecimalAux_stable (n / 10) n (n / 10 + 1) (by omega) (by omega)]

/-- `Sheet.__column_name_to_index`: the source enumerates the letter values and
sums `char_index * 26 + char_ascii`. -/
def columnNameToIndex (name : List Char) : Nat :=
  (((name.map letterVal).enum).map (fun p => p.1 * 26 + p.2)).sum

/-- The loop body of `Sheet.column_index_to_name` on a non-negative index:
emit `chr(col % 26 + 65)`, continue with `col // 26 - 1` while non-negative
(structural fuel; `col + 1` steps always suffice). -/
def colNameAuxF : Nat → Nat → List Char
  | 0, _ => []
  | fuel + 1, col =>
    if col < 26 then [letterChar (col % 26)]
    else letterChar (col % 26) :: colNameAuxF fuel (col / 26 - 1)

def colNameAux (col : Nat) : List Char := colNameAuxF (col + 1) col

/-- `Sheet.column_index_to_name` (the Python loop runs while `col_index >= 0`,
so a negative input yields the empty name). -/
def columnIndexToName (col : Int) : List Char :=
  if col < 0 then [] else colNameAux col.toNat

/-- `Sheet.row_index_to_name`: `str(row_index + 1)` on a Python int. -/
def rowIndexToName (row : Int) : List Char :=
  if row + 1 < 0 then '-' :: toDecimal (-(row + 1)).toNat
  else toDecimal (row + 1).toNat

/-- `Sheet.get_cell_name` (note the source's `(col_index, row_index)` argument
order): column name followed by row name. -/
def getCellName (col row : Int) : List Char :=
  columnIndexToName col ++ rowIndexToName row

/-- `Sheet.ROWS_NUM = 20`, `Sheet.COLUMNS_NUM = 10`,
`Sheet.__position_in_sheet_range`. -/
def positionInSheetRange (p : Pos) : Bool :=
  decide (0 ≤ p.1) && decide (p.1 < 20) && decide (0 ≤ p.2) && decide (p.2 < 10)

/-- The cell-name regex `^[A-Z]+[0-9]+$`: letters part, digits part, and
whether the whole string matches. -/
def cellLetters (name : List Char) : List Char := name.takeWhile isUpperAZ

def cellDigits (name : List Char) : List Char := name.dropWhile isUpperAZ

def matchesCellPattern (name : List Char) : Bool :=
  !(cellLetters name).isEmpty && !(cellDigits name).isEmpty &&
    (cellDigits name).all isDigitC

/-- `Sheet.__cell_name_to_location`: pattern check (`BadNameException` on
failure), then `(int(row) - 1, column_name_to_index(col))` with a bounds check. -/
def cellNameToLocation (name : List Char) : Except Err Pos :=
  if matchesCellPattern name then
    let pos : Pos := ((parseNat (cellDigits name) : Int) - 1,
                      (columnNameToIndex (cellLetters name) : Int))
    if positionInSheetRange pos then .ok pos else .error .badName
  else .error .badName

/-- `Sheet.__RANGE_NAME_PATTERN`: split `A1:B2` at the colon. -/
def splitAtColon (s : List Char) : Option (List Char × List Char) :=
  match s.splitOn ':' with
  | [l, r] => some (l, r)
  | _ => none

def matchesRangePattern (s : List Char) : Bool :=
  match splitAtColon s with
  | some (l, r) => matchesCellPattern l && matchesCellPattern r
  | none => false

/-- `Sheet.__calculate_range_positions`: regex match (`BadNameException`
otherwise), endpoint bounds check, then expansion of a row-aligned range with
ascending columns or a column-aligned range with ascending rows; any other
shape raises `BadNameException`.  The Python set of positions is represented
as the list in coordinate order (all positions are distinct). -/
def calculateRangePositions (s : List Char) : Except Err (List Pos) :=
  match splitAtColon s with
  | none => .error .badName
  | some (l, r) =>
    if matchesCellPattern l && matchesCellPattern r then
      let startPos : Pos := ((parseNat (cellDigits l) : Int) - 1,
                             (columnNameToIndex (cellLetters l) : Int))
      let endPos : Pos := ((parseNat (cellDigits r) : Int) - 1,
                           (columnNameToIndex (cellLetters r) : Int))
      if positionInSheetRange startPos && positionInSheetRange endPos then
        if startPos.1 = endPos.1 ∧ startPos.2 ≤ endPos.2 then
          .ok (((List.range (endPos.2 - startPos.2).toNat.succ).map
            (fun i => (startPos.1, startPos.2 + (i : Int)))))
        else if startPos.2 = endPos.2 ∧ startPos.1 ≤ endPos.1 then
          .ok (((List.range (endPos.1 - startPos.1).toNat.succ).map
            (fun i => (startPos.1 + (i : Int), startPos.2))))
        else .error .badName
      else .error .badName
    else .error .badName

/-! ### Exact rational arithmetic

The arithmetic of the embedding is plain fraction arithmetic on `ℚ`,
written out through `mkRat`/`Rat.num`/`Rat.den` (producing the canonical
representative) so that every concrete computation below reduces inside the
kernel. -/

/-- `a + b` on `ℚ` as normalized fraction arithmetic. -/
def qadd (a b : ℚ) : ℚ := mkRat (a.num * b.den + b.num * a.den) (a.den * b.den)

/-- `a - b`. -/
def qsub (a b : ℚ) : ℚ := mkRat (a.num * b.den - b.num * a.den) (a.den * b.den)

/-- `a * b`. -/
def qmul (a b : ℚ) : ℚ := mkRat (a.num * b.num) (a.den * b.den)

/-- `a / b` (returns `0` for `b = 0`; every caller checks the divisor
first, as the Python code paths do). -/
def qdiv (a b : ℚ) : ℚ :=
  if 0 ≤ b.num then mkRat (a.num * b.den) (a.den * b.num.toNat)
  else mkRat (-(a.num * b.den)) (a.den * (-b.num).toNat)

/-- `-a`. -/
def qneg (a : ℚ) : ℚ := mkRat (-a.num) a.den

/-- `a ^ n` for a natural exponent. -/
def qpowN (a : ℚ) : Nat → ℚ
  | 0 => 1
  | n + 1 => qmul a (qpowN a n)

/-- The canonical rational for a natural number. -/
def natQ (n : Nat) : ℚ := mkRat n 1

/-! ### Python `float(...)` on strings -/

/-- Characters Python's `str.strip()` removes (the ASCII whitespace the
formulas can contain). -/
def isPySpace (c : Char) : Bool :=
  c = ' ' || c = '\t' || c = '\n' || c = '\r' || c = '\x0b' || c = '\x0c'

/-- The unsigned part of a Python float literal:
`digits [. digits] [e|E [+|-] digits]` with at least one mantissa digit.
(`float` additionally accepts `inf`/`nan` spellings and `_` digit separators;
those are non-finite or cosmetic forms no claim exercises, and the sheet's
spec restricts operands to finite floats.)  Returns the exact rational value. -/
def parseUnsigned (s : List Char) : Option ℚ :=
  let intPart := s.takeWhile isDigitC
  let rest1 := s.dropWhile isDigitC
  let (fracPart, rest2) :=
    match rest1 with
    | '.' :: t => (t.takeWhile isDigitC, t.dropWhile isDigitC)
    | _ => ([], rest1)
  if intPart.isEmpty && fracPart.isEmpty then none
  else
    let mantissa : ℚ := qadd (natQ (parseNat intPart))
      (qdiv (natQ (parseNat fracPart)) (qpowN (natQ 10) fracPart.length))
    match rest2 with
    | [] => some mantissa
    | e :: t =>
      if e = 'e' ∨ e = 'E' then
        let (negExp, ds) : Bool × List Char :=
          match t with
          | '+' :: t' => (false, t')
          | '-' :: t' => (true, t')
          | _ => (false, t)
        if ds.isEmpty || !ds.all isDigitC then none
        else if negExp then some (qdiv mantissa (qpowN (natQ 10) (parseNat ds)))
        else some (qmul mantissa (qpowN (natQ 10) (parseNat ds)))
      else none

/-- Python `float(str)`: strips surrounding whitespace, allows one sign. -/
def pyFloat (s : List Char) : Option ℚ :=
  let t := (s.dropWhile isPySpace).reverse.dropWhile isPySpace |>.reverse
  match t with
  | '+' :: r => parseUnsigned r
  | '-' :: r => (parseUnsigned r).map qneg
  | r => parseUnsigned r

/-- `Sheet.__try_parse_number`. -/
def tryParseNumber (s : List Char) : Option ℚ := pyFloat s

/-- `ExpressionParser.__is_number`: rejects a leading sign or surrounding
whitespace, otherwise asks `float(...)`. -/
def isNumberTok (s : List Char) : Bool :=
  if s.dropWhile isPySpace ≠ s ∨ (s.reverse.dropWhile isPySpace).reverse ≠ s then false
  else if s.head? = some '+' ∨ s.head? = some '-' then false
  else (pyFloat s).isSome

/-! ### Operator catalog (`math_operator.py`) -/

inductive Assoc where
  | LTR
  | RTL
deriving DecidableEq, Repr

inductive OpKind where
  | unary
  | binary
  | range
deriving DecidableEq, Repr

inductive OpName where
  | plus
  | minus
  | times
  | divide
  | negate
  | sine
  | power
  | maxR
  | minR
  | sumR
  | averageR
deriving DecidableEq, Repr

/-- A concrete operator: symbol, precedence, associativity and arity class,
with `name` selecting its `calculate` implementation. -/
structure MathOp where
  name : OpName
  symbol : List Char
  precedence : Nat
  assoc : Assoc
  kind : OpKind
deriving DecidableEq, Repr

/-- The operator list passed to `ExpressionParser` by `Sheet.__init__`
(`Plus(), Minus(), Times(), Divide(), Negate(), Sin(), Power(), Max(), Min(),
Sum(), Average()`), with the precedences and associativities of
`math_operator.py`. -/
def registry : List MathOp :=
  [⟨.plus, ['+'], 1, .LTR, .binary⟩,
   ⟨.minus, ['-'], 1, .LTR, .binary⟩,
   ⟨.times, ['*'], 2, .LTR, .binary⟩,
   ⟨.divide, ['/'], 2, .LTR, .binary⟩,
   ⟨.negate, ['-'], 3, .RTL, .unary⟩,
   ⟨.sine, ['s', 'i', 'n'], 3, .RTL, .unary⟩,
   ⟨.power, ['^'], 4, .RTL, .binary⟩,
   ⟨.maxR, ['m', 'a', 'x'], 3, .RTL, .range⟩,
   ⟨.minR, ['m', 'i', 'n'], 3, .RTL, .range⟩,
   ⟨.sumR, ['s', 'u', 'm'], 3, .RTL, .range⟩,
   ⟨.averageR, ['a', 'v', 'e', 'r', 'a', 'g', 'e'], 3, .RTL, .range⟩]

/-! ### Expression tree (`node.py`) -/

inductive NodeVal where
  | num (q : ℚ)
  | str (s : List Char)
  | op (o : MathOp)
deriving DecidableEq, Repr

/-- `node.Node`: a value with optional left/right children.  The four
constructors enumerate which children are present (a shape `DecidableEq` can
be derived for); `Node.make` is the Python constructor `Node(value, left,
right)` and `Node.left` / `Node.right` recover the optional fields. -/
inductive Node where
  | mk0 (value : NodeVal)
  | mkR (value : NodeVal) (right : Node)
  | mkL (value : NodeVal) (left : Node)
  | mkLR (value : NodeVal) (left : Node) (right : Node)
deriving DecidableEq, Repr

/-- `Node(value, left, right)`. -/
def Node.make (v : NodeVal) : Option Node → Option Node → Node
  | none, none => .mk0 v
  | none, some r => .mkR v r
  | some l, none => .mkL v l
  | some l, some r => .mkLR v l r

def Node.value : Node → NodeVal
  | .mk0 v => v
  | .mkR v _ => v
  | .mkL v _ => v
  | .mkLR v _ _ => v

def Node.left : Node → Option Node
  | .mk0 _ => none
  | .mkR _ _ => none
  | .mkL _ l => some l
  | .mkLR _ l _ => some l

def Node.right : Node → Option Node
  | .mk0 _ => none
  | .mkR _ r => some r
  | .mkL _ _ => none
  | .mkLR _ _ r => some r

/-- `Node.is_leaf`. -/
def Node.isLeaf (n : Node) : Bool :=
  n.left.isNone && n.right.isNone

/-- `Node.preorder`, restricted to the node values (which is all
`Sheet.__get_string_nodes` reads from the traversal). -/
def Node.preorderVals : Node → List NodeVal
  | .mk0 v => [v]
  | .mkR v r => v :: r.preorderVals
  | .mkL v l => v :: l.preorderVals
  | .mkLR v l r => v :: (l.preorderVals ++ r.preorderVals)

/-! ### Tokenizer and shunting-yard parser (`expression_parser.py`) -/

/-- A token is a non-empty substring of the expression. -/
abbrev Tok := List Char

def isOpenBracket (t : Tok) : Bool :=
  t = ['('] || t = ['['] || t = ['{']

def isCloseBracket (t : Tok) : Bool :=
  t = [')'] || t = [']'] || t = ['}']

def isBracketTok (t : Tok) : Bool :=
  isCloseBracket t || isOpenBracket t

/-- `str.isspace()`: non-empty and all whitespace. -/
def isSpaceTok (t : Tok) : Bool :=
  !t.isEmpty && t.all isPySpace

/-- `ExpressionParser.__is_operator`. -/
def isOperatorTok (t : Tok) : Bool :=
  registry.any (fun op => op.symbol == t)

/-- `ExpressionParser.__is_location` (the cell-name regex). -/
def isLocationTok (t : Tok) : Bool := matchesCellPattern t

/-- `ExpressionParser.__is_range_token`. -/
def isRangeTok (t : Tok) : Bool := matchesRangePattern t

def isOperandTok (t : Tok) : Bool :=
  isNumberTok t || isLocationTok t || isRangeTok t

/-- `ExpressionParser.__is_valid_token`. -/
def isValidToken (t : Tok) : Bool :=
  isBracketTok t || isSpaceTok t || isOperandTok t || isOperatorTok t

/-- `ExpressionParser.__find_next_matching_token`: scan every prefix of the
remaining text, remembering the longest valid one. -/
def findNextMatchingToken (rest : List Char) : Tok :=
  (List.range rest.length).foldl
    (fun best k =>
      let cand := rest.take (k + 1)
      if isValidToken cand then cand else best)
    []

theorem findNextMatchingToken_length (rest : List Char) :
    (findNextMatchingToken rest).length ≤ rest.length := by
  unfold findNextMatchingToken
  have : ∀ (range : List Nat) (best : Tok), best.length ≤ rest.length →
      (range.foldl (fun best k =>
        let cand := rest.take (k + 1)
        if isValidToken cand then cand else best) best).length ≤ rest.length := by
    intro range
    induction range with
    | nil => intro best h; exact h
    | cons k ks ih =>
      intro best h
      simp only [List.foldl_cons]
      apply ih
      by_cases hv : isValidToken (rest.take (k + 1))
      · simp only [hv, if_true]
        rw [List.length_take]
        exact min_le_right _ _
      · simp [hv, h]
  exact this _ [] (by simp)

/-- `ExpressionParser.__tokenize`: repeatedly take the longest valid token;
`ParserException` when none exists.  Each emitted token is non-empty, so the
structural fuel `expr.length` spent one unit per token always suffices and
the fuel-exhaustion branch is unreachable. -/
def tokenizeGo : Nat → List Char → Except Err (List Tok)
  | _, [] => .ok []
  | 0, _ :: _ => .error .unexpected
  | fuel + 1, c :: cs =>
    let tok := findNextMatchingToken (c :: cs)
    if tok.isEmpty then .error .parser
    else
      match tokenizeGo fuel ((c :: cs).drop tok.length) with
      | .ok more => .ok (tok :: more)
      | .error e => .error e

def tokenize (expr : List Char) : Except Err (List Tok) :=
  tokenizeGo expr.length expr

/-- `ExpressionParser.__are_parentheses_pairs`. -/
def areParenthesesPairs (o c : Tok) : Bool :=
  (o = ['('] && c = [')']) || (o = ['['] && c = [']']) || (o = ['{'] && c = ['}'])

/-- `ExpressionParser.__does_have_higher_precedence`: whether the operator on
the stack (`op1`) must be popped before pushing the incoming operator
(`op2`). -/
def doesHaveHigherPrecedence (op1 op2 : MathOp) : Bool :=
  (op2.assoc == Assoc.LTR && op2.precedence ≤ op1.precedence) ||
  (op2.assoc == Assoc.RTL && op2.precedence < op1.precedence)

/-- `ExpressionParser.__find_operator`: a range operator with the symbol wins;
otherwise the binary form if the previous token was an operand and a binary
form exists, else the unary form (possibly `none`). -/
def findOperator (t : Tok) (prevOperand : Bool) : Option MathOp :=
  let filtered := registry.filter (fun op => op.symbol == t)
  match filtered.find? (fun op => op.kind == OpKind.range) with
  | some r => some r
  | none =>
    let b := filtered.find? (fun op => op.kind == OpKind.binary)
    let u := filtered.find? (fun op => op.kind == OpKind.unary)
    if prevOperand && b.isSome then b else u

/-- An element of the shunting-yard operator stack: an operator or an open
bracket. -/
inductive StackItem where
  | op (o : MathOp)
  | br (b : Tok)
deriving DecidableEq, Repr

/-- An element of the postfix output: `float(token)`, a cell/range name
string, or an operator. -/
inductive PFItem where
  | num (q : ℚ)
  | str (s : Tok)
  | op (o : MathOp)
deriving DecidableEq, Repr

/-- `ExpressionParser.__handle_operator`: pop while the stack top is an
operator that `__does_have_higher_precedence` over the incoming one, then
push. -/
def handleOperator (o : MathOp) : List StackItem → List PFItem →
    List StackItem × List PFItem
  | .op top :: rest, out =>
    if doesHaveHigherPrecedence top o then handleOperator o rest (out ++ [.op top])
    else (.op o :: .op top :: rest, out)
  | stack, out => (.op o :: stack, out)

/-- The pop loop of `ExpressionParser.__handle_close_bracket`: pop operators
to the output until an open bracket is found (`ParserException` if none). -/
def popUntilOpen : List StackItem → List PFItem →
    Except Err (Tok × List StackItem × List PFItem)
  | [], _ => .error .parser
  | .br b :: rest, out => .ok (b, rest, out)
  | .op o :: rest, out => popUntilOpen rest (out ++ [.op o])

/-- The final stack drain of `ExpressionParser.__postfix`: pop every
remaining item to the output, raising on a leftover bracket. -/
def drainStack : List StackItem → List PFItem → Except Err (List PFItem)
  | [], out => .ok out
  | .br _ :: _, _ => .error .parser
  | .op o :: rest, out => drainStack rest (out ++ [.op o])

/-- `ExpressionParser.__process_token_postfix` iterated over the token list,
with the final stack-drain and trailing-operand check of
`ExpressionParser.__postfix` in the base case. -/
def postfixGo : List Tok → List StackItem → List PFItem → Bool → Bool →
    Except Err (List PFItem)
  | [], stack, out, prevOperand, _ =>
    -- drain the stack (a bracket left on it is an error), then require the
    -- expression to end with an operand
    (match drainStack stack out with
     | .error e => .error e
     | .ok out' => if prevOperand then .ok out' else .error .parser)
  | t :: rest, stack, out, prevOperand, prevOpen =>
    if isOpenBracket t then
      if prevOperand then .error .parser
      else postfixGo rest (.br t :: stack) out false true
    else if isCloseBracket t then
      if prevOpen then .error .parser
      else
        match popUntilOpen stack out with
        | .error e => .error e
        | .ok (b, stack', out') =>
          if areParenthesesPairs b t then postfixGo rest stack' out' true false
          else .error .parser
    else if isOperatorTok t then
      match findOperator t prevOperand with
      | none => .error .parser
      | some o =>
        if o.kind = OpKind.range then
          -- `__handle_range_func`: the next three tokens must be an open
          -- bracket, a range name and a matching close bracket
          match rest with
          | b1 :: rt :: b2 :: rest' =>
            if isOpenBracket b1 && isCloseBracket b2 &&
                areParenthesesPairs b1 b2 && isRangeTok rt then
              postfixGo rest' stack (out ++ [.str rt, .op o]) true false
            else .error .parser
          | _ => .error .parser
        else
          let (stack', out') := handleOperator o stack out
          postfixGo rest stack' out' false false
    else if isNumberTok t then
      if prevOperand then .error .parser
      else postfixGo rest stack (out ++ [.num ((pyFloat t).getD 0)]) true false
    else if isLocationTok t then
      if prevOperand then .error .parser
      else postfixGo rest stack (out ++ [.str t]) true false
    else .error .parser

/-- `ExpressionParser.__postfix`: raises on an empty token list, filters
whitespace tokens, then runs the scan. -/
def toPostfix (tokens : List Tok) : Except Err (List PFItem) :=
  if tokens = [] then .error .parser
  else postfixGo (tokens.filter (fun t => !isSpaceTok t)) [] [] false false

/-- The tree-building loop of `ExpressionParser.syntax_tree`: leaves push
nodes, a unary or range operator pops one child (its right child), a binary
operator pops right then left; the final `stack.pop()` raises `IndexError`
(an unexpected error) on an empty stack. -/
def buildTree : List PFItem → List Node → Except Err Node
  | [], root :: _ => .ok root
  | [], [] => .error .unexpected
  | .num q :: rest, stack => buildTree rest (.mk0 (.num q) :: stack)
  | .str s :: rest, stack => buildTree rest (.mk0 (.str s) :: stack)
  | .op o :: rest, stack =>
    if o.kind = OpKind.unary ∨ o.kind = OpKind.range then
      match stack with
      | r :: stack' => buildTree rest (Node.make (.op o) none (some r) :: stack')
      | [] => .error .parser
    else
      match stack with
      | r :: l :: stack' => buildTree rest (Node.make (.op o) (some l) (some r) :: stack')
      | _ => .error .parser

/-- `ExpressionParser.syntax_tree`. -/
def syntaxTree (expr : List Char) : Except Err Node :=
  match tokenize expr with
  | .error e => .error e
  | .ok tokens =>
    match toPostfix tokens with
    | .error e => .error e
    | .ok pf =>
      if pf = [] then .error .parser
      else buildTree pf []

/-! ### Sheet state and evaluation (`sheet.py`) -/

/-- A cell value: a float or a literal string. -/
inductive Value where
  | num (q : ℚ)
  | str (s : List Char)
deriving DecidableEq, Repr

/-- Parsed cell content: a literal string, a float, or an expression tree. -/
inductive Content where
  | str (s : List Char)
  | num (q : ℚ)
  | node (n : Node)
deriving DecidableEq, Repr

/-- Modelled from the spec: `Cell` is "the tuple `{raw: string, parsed:
Content}`" and is constructed by `try_update` as `Cell(written_content,
content)`.  (The `cell.py` present in the repository is a stale earlier
revision whose constructor takes a third argument and which `sheet.py`'s
two-argument calls do not match; the two-field record is the form the spec
documents and `sheet.py` uses.) -/
structure Cell where
  raw : List Char
  parsed : Content
deriving DecidableEq, Repr

/-- `SheetState`: the three committed maps owned by the engine. -/
structure SheetState where
  cells : Store Cell
  values : Store Value
  graph : DiGraph
deriving DecidableEq, Repr

/-- A sheet constructed with no JSON file. -/
def emptySheet : SheetState := ⟨[], [], DiGraph.empty⟩

def Value.isStr : Value → Bool
  | .str _ => true
  | .num _ => false

/-- `math.sin`, which is transcendental and outside the exact rational
fragment; no claim evaluates it.  Modelled as an uninterpreted constant-zero
function on `ℚ`. -/
def sinQ (_ : ℚ) : ℚ := 0

/-- `math.pow` on the arguments the claims exercise: an integral exponent
applied to a rational base (exact in IEEE arithmetic for the small integers
involved).  Non-integral exponents (whose IEEE value is irrational) are
mapped to `0`; no claim exercises them. -/
def powQ (a b : ℚ) : ℚ :=
  if b.den = 1 then
    if 0 ≤ b.num then qpowN a b.num.toNat
    else qdiv 1 (qpowN a (-b.num).toNat)
  else 0

/-- `UnaryOperator.calculate` dispatch: applying `-` or `math.sin` to a
string raises `TypeError`, an unexpected error. -/
def applyUnary (o : MathOp) (v : Value) : Except Err Value :=
  match o.name, v with
  | .negate, .num q => .ok (.num (qneg q))
  | .sine, .num q => .ok (.num (sinQ q))
  | _, _ => .error .unexpected

/-- `BinaryOperator.calculate` dispatch: `float` arithmetic on the operands;
a string operand raises `TypeError` (unexpected), and `/` with a zero right
operand raises `ZeroDivisionError`. -/
def applyBinary (o : MathOp) (l r : Value) : Except Err Value :=
  match l, r with
  | .num a, .num b =>
    match o.name with
    | .plus => .ok (.num (qadd a b))
    | .minus => .ok (.num (qsub a b))
    | .times => .ok (.num (qmul a b))
    | .divide => if b = 0 then .error .zeroDiv else .ok (.num (qdiv a b))
    | .power => .ok (.num (powQ a b))
    | _ => .error .unexpected
  | _, _ => .error .unexpected

/-- `RangeOperator.calculate` dispatch on the list of (numeric) range values:
`max`/`min` raise `ValueError` on an empty list, `sum([]) == 0`, and
`average` of an empty list raises `ZeroDivisionError` (none of which is
reachable, since a range always expands to at least one position). -/
def applyRange (o : MathOp) (qs : List ℚ) : Except Err Value :=
  match o.name with
  | .maxR =>
    match qs with
    | [] => .error .unexpected
    | q :: rest => .ok (.num (rest.foldl max q))
  | .minR =>
    match qs with
    | [] => .error .unexpected
    | q :: rest => .ok (.num (rest.foldl min q))
  | .sumR => .ok (.num (qs.foldl qadd 0))
  | .averageR =>
    match qs with
    | [] => .error .zeroDiv
    | _ => .ok (.num (qdiv (qs.foldl qadd 0) (natQ qs.length)))
  | _ => .error .unexpected

/-- The recursion-depth budget: CPython aborts deep evaluations with
`RecursionError` (caught by `try_update` as an unexpected error); the
embedding spends one unit of fuel per recursive evaluation step. -/
def evalFuel : Nat := 1000

mutual

/-- `Sheet.__evaluate`. -/
def evaluate (fuel : Nat) (cells : Store Cell) (n : Node)
    (cache : Store Value) : Except Err (Value × Store Value) :=
  match fuel with
  | 0 => .error .unexpected
  | fuel + 1 =>
    if n.isLeaf then evaluateLeaf fuel cells n cache
    else evaluateInternal fuel cells n cache

/-- `Sheet.__evaluate_leaf_node`. -/
def evaluateLeaf (fuel : Nat) (cells : Store Cell) (n : Node)
    (cache : Store Value) : Except Err (Value × Store Value) :=
  match fuel with
  | 0 => .error .unexpected
  | fuel + 1 =>
    match n.value with
    | .num q => .ok (.num q, cache)
    | .str s =>
      match cellNameToLocation s with
      | .error e => .error e
      | .ok p => evaluatePosition fuel cells p cache
    | .op _ => .error .evaluation

/-- `Sheet.__evaluate_position`: scratch cache first, then compute on demand
from the referenced cell's parsed content (a missing cell is an
`EvaluationException`), caching the result. -/
def evaluatePosition (fuel : Nat) (cells : Store Cell) (p : Pos)
    (cache : Store Value) : Except Err (Value × Store Value) :=
  match fuel with
  | 0 => .error .unexpected
  | fuel + 1 =>
    match cache.lookup p with
    | some v => .ok (v, cache)
    | none =>
      match cells.lookup p with
      | none => .error .evaluation
      | some cell =>
        match
          (match cell.parsed with
           | .node n => evaluate fuel cells n cache
           | .num q => .ok (Value.num q, cache)
           | .str t => .ok (Value.str t, cache)) with
        | .error e => .error e
        | .ok (v, cache') => .ok (v, cache'.insert p v)

/-- `Sheet.__evaluate_internal_node`. -/
def evaluateInternal (fuel : Nat) (cells : Store Cell) (n : Node)
    (cache : Store Value) : Except Err (Value × Store Value) :=
  match fuel with
  | 0 => .error .unexpected
  | fuel + 1 =>
    match n.value with
    | .num _ => .error .evaluation
    | .str _ => .error .evaluation
    | .op o =>
      if o.kind = OpKind.range then
        match n.right with
        | none => .error .unexpected   -- `node.right.value` raises `AttributeError`
        | some r =>
          match r.value, n.left with
          | .str s, none =>
            match calculateRangePositions s with
            | .error e => .error e
            | .ok ps =>
              match evaluatePositions fuel cells ps cache with
              | .error e => .error e
              | .ok (vs, cache') =>
                if vs.any Value.isStr then .error .evaluation
                else
                  match applyRange o (vs.map (fun v =>
                      match v with | .num q => q | .str _ => 0)) with
                  | .error e => .error e
                  | .ok v => .ok (v, cache')
          | _, _ => .error .evaluation
      else
        match (match n.left with
               | some l =>
                 match evaluate fuel cells l cache with
                 | .error e => Except.error e
                 | .ok (v, c) => Except.ok (some v, c)
               | none => Except.ok (none, cache)) with
        | .error e => .error e
        | .ok (leftVal, cache₁) =>
          match (match n.right with
                 | some r =>
                   match evaluate fuel cells r cache₁ with
                   | .error e => Except.error e
                   | .ok (v, c) => Except.ok (some v, c)
                 | none => Except.ok (none, cache₁)) with
          | .error e => .error e
          | .ok (rightVal, cache₂) =>
            -- the source's string check tests `left_val` twice
            -- (`isinstance(left_val, str) or isinstance(left_val, str)`),
            -- so a string in the right operand is never caught here
            if (match leftVal with | some v => v.isStr | none => false) ||
               (match leftVal with | some v => v.isStr | none => false) then
              .error .evaluation
            else if o.kind = OpKind.unary then
              match rightVal with
              | none => .error .evaluation
              | some rv =>
                match applyUnary o rv with
                | .error e => .error e
                | .ok v => .ok (v, cache₂)
            else
              match leftVal, rightVal with
              | some lv, some rv =>
                match applyBinary o lv rv with
                | .error e => .error e
                | .ok v => .ok (v, cache₂)
              | _, _ => .error .evaluation

/-- The list comprehension evaluating every position of a range. -/
def evaluatePositions (fuel : Nat) (cells : Store Cell) (ps : List Pos)
    (cache : Store Value) : Except Err (List Value × Store Value) :=
  match fuel with
  | 0 => .error .unexpected
  | fuel + 1 =>
    match ps with
    | [] => .ok ([], cache)
    | p :: rest =>
      match evaluatePosition fuel cells p cache with
      | .error e => .error e
      | .ok (v, cache') =>
        match evaluatePositions fuel cells rest cache' with
        | .error e => .error e
        | .ok (vs, cache'') => .ok (v :: vs, cache'')

end

/-- `Sheet.__parse_content`: a parseable float wins, then a leading `=`
invokes the formula parser, otherwise the content is a literal string. -/
def parseContent (w : List Char) : Except Err Content :=
  match tryParseNumber w with
  | some q => .ok (.num q)
  | none =>
    match w with
    | '=' :: rest =>
      match syntaxTree rest with
      | .error e => .error e
      | .ok n => .ok (.node n)
    | _ => .ok (.str w)

/-- `Sheet.__get_string_nodes`. -/
def getStringNodes (n : Node) : List (List Char) :=
  n.preorderVals.filterMap (fun v =>
    match v with
    | .str s => some s
    | _ => none)

/-- `Sheet.__get_dependencies`: each string node matching the cell pattern
contributes its position (bounds-checked, `BadNameException` outside the
sheet), each one matching the range pattern contributes its expansion; the
Python `set` is modelled as a duplicate-free list in first-seen order. -/
def getDependencies (n : Node) : Except Err (List Pos) :=
  (getStringNodes n).foldlM
    (fun acc tok =>
      if matchesCellPattern tok then
        match cellNameToLocation tok with
        | .error e => .error e
        | .ok p => .ok (if p ∈ acc then acc else acc ++ [p])
      else if matchesRangePattern tok then
        match calculateRangePositions tok with
        | .error e => .error e
        | .ok ps => .ok (ps.foldl (fun a p => if p ∈ a then a else a ++ [p]) acc)
      else .ok acc)
    []

/-- The dependency set of parsed content (`set()` for non-formula content). -/
def contentDependencies : Content → Except Err (List Pos)
  | .node n => getDependencies n
  | _ => .ok []

/-- `Sheet.__get_updated_graph`: copy the committed graph, remove the edited
position's outgoing edges, add one edge per new dependency, prune isolates
(a no-op, see `DiGraph.removeIsolates`). -/
def getUpdatedGraph (g : DiGraph) (pos : Pos) (deps : List Pos) : DiGraph :=
  DiGraph.removeIsolates
    ((g.removeOutEdges pos).addEdges (deps.map (fun d => (pos, d))))

/-- `Sheet.__compute_dependencies`: a full topological sort of the tentative
graph (`CircularDependenciesException` on a cycle), then the edited
position's reverse-graph descendants listed in reverse topological order. -/
def computeDependencies (pos : Pos) (g : DiGraph) : Except Err (List Pos) :=
  match g.topologicalSort with
  | none => .error .circular
  | some order =>
    if pos ∈ g.nodes then
      .ok (order.reverse.filter (fun v => decide (v ∈ g.descendantsOfReverse pos)))
    else .ok []

/-- The re-evaluation loop over `dependents_to_reevaluate`, threading the
scratch cache and accumulating `positions_to_update`. -/
def reevalDependents (fuel : Nat) (cells : Store Cell) :
    List Pos → Store Value → Store Value →
    Except Err (Store Value × Store Value)
  | [], cache, ptu => .ok (ptu, cache)
  | p :: rest, cache, ptu =>
    match evaluatePosition fuel cells p cache with
    | .error e => .error e
    | .ok (v, cache') => reevalDependents fuel cells rest cache' (ptu.insert p v)

/-- Lines 156–157 of `try_update`: a fresh scratch cache, then the edited
content's value (tree evaluation for formulas, pass-through otherwise),
returned together with the scratch cache. -/
def evalContent (cells : Store Cell) : Content → Except Err (Value × Store Value)
  | .node n => evaluate evalFuel cells n []
  | .num q => .ok (.num q, [])
  | .str t => .ok (.str t, [])

/-- The `Sheet.try_update` transaction body (the part inside the `try`),
returning the committed state and the `positions_to_update` mapping on
success and the raised exception otherwise.  Mirrors `sheet.py` line by
line; committed state is only constructed at the two `return True` sites. -/
def tryUpdateE (s : SheetState) (row col : Int) (w : List Char) :
    Except Err (SheetState × Store (Option Value)) := do
  let content ← parseContent w
  let deps ← contentDependencies content
  -- `new_dependency_graph`, the tentative graph
  let dependents ← computeDependencies (row, col) (getUpdatedGraph s.graph (row, col) deps)
  if content = .str [] then
    -- `__delete_position`: fails when dependents exist, otherwise pops the
    -- cell and its cached value; the tentative graph is *not* committed on
    -- this path
    if dependents = [] then
      pure ({ s with cells := s.cells.erase (row, col),
                     values := s.values.erase (row, col) },
            [((row, col), none)])
    else throw .evaluation
  else do
    let vc ← evalContent s.cells content
    let pcr ← reevalDependents evalFuel s.cells dependents
      (vc.2.insert (row, col) vc.1) [((row, col), vc.1)]
    pure ({ cells := s.cells.insert (row, col) ⟨w, content⟩,
            values := s.values.insertAll pcr.1,
            graph := getUpdatedGraph s.graph (row, col) deps },
          pcr.1.map (fun e => (e.1, some e.2)))

/-- The tuple `Sheet.try_update` returns, together with the (possibly
unchanged) committed state after the call. -/
structure UpdateResult where
  ok : Bool
  changed : Store (Option Value)
  reason : Option FailureReason
  state : SheetState
deriving DecidableEq, Repr

/-- `Sheet.try_update`: every exception raised by the body is caught and
mapped to its `FailureReason`; on failure the committed state is the state
before the call. -/
def tryUpdate (s : SheetState) (row col : Int) (w : List Char) : UpdateResult :=
  match tryUpdateE s row col w with
  | .ok (s', delta) => ⟨true, delta, none, s'⟩
  | .error e => ⟨false, [], some e.toReason, s⟩

/-! ### Decimal and column-name round-trip lemmas -/

theorem digitChar_digitVal (c : Char) (h : isDigitC c = true) :
    digitChar (digitVal c) = c := by
  simp only [isDigitC, Bool.and_eq_true, decide_eq_true_eq] at h
  unfold digitChar digitVal
  rw [Nat.sub_add_cancel h.1]
  exact Char.ofNat_toNat c

theorem letterChar_letterVal (c : Char) (h : isUpperAZ c = true) :
    letterChar (letterVal c) = c := by
  simp only [isUpperAZ, Bool.and_eq_true, decide_eq_true_eq] at h
  unfold letterChar letterVal
  rw [Nat.sub_add_cancel h.1]
  exact Char.ofNat_toNat c

theorem digitVal_le (c : Char) (h : isDigitC c = true) : digitVal c ≤ 9 := by
  simp only [isDigitC, Bool.and_eq_true, decide_eq_true_eq] at h
  unfold digitVal
  omega

theorem digitVal_pos (c : Char) (hd : isDigitC c = true) (h0 : c ≠ '0') :
    1 ≤ digitVal c := by
  simp only [isDigitC, Bool.and_eq_true, decide_eq_true_eq] at hd
  by_contra hlt
  have hz : c.toNat = 48 := by unfold digitVal at hlt; omega
  have hc := Char.ofNat_toNat c
  rw [hz] at hc
  exact h0 (by rw [← hc])

theorem parseNat_append (l : List Char) (c : Char) :
    parseNat (l ++ [c]) = parseNat l * 10 + digitVal c := by
  unfold parseNat
  rw [List.foldl_append]
  rfl

theorem parseNat_foldl_le (t : List Char) : ∀ a : Nat,
    a ≤ t.foldl (fun acc c => acc * 10 + digitVal c) a := by
  induction t with
  | nil => intro a; exact le_refl a
  | cons d t ih =>
    intro a
    calc a ≤ a * 10 + digitVal d := by omega
    _ ≤ _ := ih (a * 10 + digitVal d)

theorem parseNat_pos (l : List Char) (hne : l ≠ [])
    (hd : l.all isDigitC = true) (h0 : l.head? ≠ some '0') :
    1 ≤ parseNat l := by
  match l, hne with
  | c :: t, _ =>
    have hc : isDigitC c = true := by
      simp only [List.all_cons, Bool.and_eq_true] at hd
      exact hd.1
    have h0' : c ≠ '0' := by
      intro hh
      exact h0 (by rw [hh]; rfl)
    have h1 : 1 ≤ digitVal c := digitVal_pos c hc h0'
    have := parseNat_foldl_le t (digitVal c)
    unfold parseNat
    simp only [List.foldl_cons]
    have hz : (0 : Nat) * 10 + digitVal c = digitVal c := by omega
    rw [hz]
    omega

/-- `str(int(ds)) == ds` for a non-empty digit string without a leading
zero. -/
theorem toDecimal_parseNat : ∀ ds : List Char, ds ≠ [] →
    ds.all isDigitC = true → ds.head? ≠ some '0' →
    toDecimal (parseNat ds) = ds := by
  intro ds
  induction ds using List.reverseRecOn with
  | nil => intro h; exact absurd rfl h
  | append_singleton l c ih =>
    intro _ hall hzero
    have hallc : l.all isDigitC = true ∧ isDigitC c = true := by
      simp only [List.all_append, List.all_cons, List.all_nil,
        Bool.and_eq_true, Bool.and_true] at hall
      exact hall
    match l with
    | [] =>
      have hc0 : c ≠ '0' := by
        intro hh
        apply hzero
        rw [hh]
        rfl
      have h9 : digitVal c ≤ 9 := digitVal_le c hallc.2
      simp only [List.nil_append]
      rw [show parseNat [c] = digitVal c from by
        unfold parseNat; simp [List.foldl]]
      rw [toDecimal_lt10 _ (by omega), digitChar_digitVal c hallc.2]
    | d :: t =>
      have hzero' : (d :: t).head? ≠ some '0' := by
        simpa using hzero
      have hm : 1 ≤ parseNat (d :: t) :=
        parseNat_pos _ (by simp) hallc.1 hzero'
      have h9 : digitVal c ≤ 9 := digitVal_le c hallc.2
      rw [parseNat_append]
      have h10 : 10 ≤ parseNat (d :: t) * 10 + digitVal c := by omega
      rw [toDecimal_ge10 _ h10]
      have hdiv : (parseNat (d :: t) * 10 + digitVal c) / 10 = parseNat (d :: t) := by
        omega
      have hmod : (parseNat (d :: t) * 10 + digitVal c) % 10 = digitVal c := by
        omega
      rw [hdiv, hmod, ih (by simp) hallc.1 hzero', digitChar_digitVal c hallc.2]

/-- The weighted sum `Sheet.__column_name_to_index` computes, as a
`Finset.range` sum. -/
theorem enumFrom_weighted_sum (l : List Nat) : ∀ k,
    ((l.enumFrom k).map (fun p => p.1 * 26 + p.2)).sum
      = ∑ i in Finset.range l.length, ((k + i) * 26 + l.getD i 0) := by
  induction l with
  | nil => intro k; simp
  | cons a t ih =>
    intro k
    rw [List.enumFrom_cons]
    simp only [List.map_cons, List.sum_cons, ih (k + 1), List.length_cons]
    rw [Finset.sum_range_succ']
    have hterm : ∀ i : Nat, (k + (i + 1)) * 26 + (a :: t).getD (i + 1) 0
        = ((k + 1) + i) * 26 + t.getD i 0 := by
      intro i
      have harith : (k + (i + 1)) * 26 = ((k + 1) + i) * 26 := by ring
      rw [List.getD_cons_succ, harith]
    rw [Finset.sum_congr rfl (fun i _ => hterm i)]
    simp [List.getD_cons_zero]
    omega

theorem columnNameToIndex_eq_weighted_sum (name : List Char) :
    columnNameToIndex name = ∑ i in Finset.range name.length,
      (i * 26 + letterVal (name.getD i 'A')) := by
  unfold columnNameToIndex
  rw [show (name.map letterVal).enum = (name.map letterVal).enumFrom 0 from rfl]
  rw [enumFrom_weighted_sum]
  rw [List.length_map]
  apply Finset.sum_congr rfl
  intro i hi
  rw [Finset.mem_range] at hi
  have h1 : (name.map letterVal).getD i 0 = letterVal (name.getD i 'A') := by
    rw [List.getD_eq_getElem?_getD, List.getD_eq_getElem?_getD,
      List.getElem?_map]
    rw [List.getElem?_eq_getElem hi]
    rfl
  rw [h1]
  omega

theorem columnNameToIndex_single (c : Char) :
    columnNameToIndex [c] = letterVal c := by
  unfold columnNameToIndex
  simp [List.enum]

theorem columnNameToIndex_two_ge (c₀ c₁ : Char) (t : List Char) :
    26 ≤ columnNameToIndex (c₀ :: c₁ :: t) := by
  unfold columnNameToIndex
  simp only [List.map_cons]
  rw [show (letterVal c₀ :: letterVal c₁ :: t.map letterVal).enum
      = (0, letterVal c₀) :: (1, letterVal c₁)
        :: (t.map letterVal).enumFrom 2 from rfl]
  simp only [List.map_cons, List.sum_cons]
  omega

theorem colNameAux_lt26 (v : Nat) (h : v < 26) :
    colNameAux v = [letterChar v] := by
  unfold colNameAux colNameAuxF
  simp [h, Nat.mod_eq_of_lt h]

/-- The inverse direction of the coordinate bijection on canonical names:
a name accepted by `__cell_name_to_location` whose row digits have no
leading zero is reproduced exactly by `get_cell_name`. -/
theorem getCellName_of_cellNameToLocation (name : List Char) (r c : Int)
    (h : cellNameToLocation name = .ok (r, c))
    (hz : (cellDigits name).head? ≠ some '0') :
    getCellName c r = name := by
  unfold cellNameToLocation at h
  by_cases hm : matchesCellPattern name = true
  · rw [if_pos hm] at h
    by_cases hb : positionInSheetRange
        ((parseNat (cellDigits name) : Int) - 1,
         (columnNameToIndex (cellLetters name) : Int)) = true
    · rw [if_pos hb] at h
      have hpos := Except.ok.inj h
      have hr : (parseNat (cellDigits name) : Int) - 1 = r :=
        congrArg Prod.fst hpos
      have hc : (columnNameToIndex (cellLetters name) : Int) = c :=
        congrArg Prod.snd hpos
      simp only [matchesCellPattern, Bool.and_eq_true, Bool.not_eq_eq_eq_not,
        Bool.not_true, List.isEmpty_eq_false] at hm
      have hletne : cellLetters name ≠ [] := hm.1.1
      have hdigne : cellDigits name ≠ [] := hm.1.2
      have hdigall : (cellDigits name).all isDigitC = true := hm.2
      simp only [positionInSheetRange, Bool.and_eq_true, decide_eq_true_eq]
        at hb
      -- row bounds give the row index back as a natural number
      have hn1 : 1 ≤ parseNat (cellDigits name) := by
        have := hb.1.1.1
        omega
      -- the column index is below 10, hence the letter part is one character
      have hcollt : columnNameToIndex (cellLetters name) < 10 := by
        exact_mod_cast hb.2
      unfold getCellName
      -- column part
      have hcolumn : columnIndexToName c = cellLetters name := by
        match hlet : cellLetters name, hletne with
        | [c₀], _ =>
          have hv : columnNameToIndex [c₀] = letterVal c₀ :=
            columnNameToIndex_single c₀
          have hc' : c = (letterVal c₀ : Int) := by
            rw [← hc, hlet, hv]
          have hvlt : letterVal c₀ < 10 := by
            rw [hlet, hv] at hcollt
            exact hcollt
          have hup : isUpperAZ c₀ = true := by
            have : c₀ ∈ name.takeWhile isUpperAZ := by
              rw [show name.takeWhile isUpperAZ = cellLetters name from rfl,
                hlet]
              simp
            exact List.mem_takeWhile_imp this
          rw [hc']
          unfold columnIndexToName
          rw [if_neg (by omega)]
          rw [show ((letterVal c₀ : Int)).toNat = letterVal c₀ from
            Int.toNat_natCast _]
          rw [colNameAux_lt26 _ (by omega), letterChar_letterVal c₀ hup]
        | c₀ :: c₁ :: t, _ =>
          have := columnNameToIndex_two_ge c₀ c₁ t
          rw [hlet] at hcollt
          omega
      -- row part
      have hrow : rowIndexToName r = cellDigits name := by
        unfold rowIndexToName
        have hr1 : r + 1 = (parseNat (cellDigits name) : Int) := by omega
        rw [hr1, if_neg (by omega),
          show ((parseNat (cellDigits name) : Int)).toNat
            = parseNat (cellDigits name) from Int.toNat_natCast _]
        exact toDecimal_parseNat _ hdigne hdigall hz
      rw [hcolumn, hrow]
      show name.takeWhile isUpperAZ ++ name.dropWhile isUpperAZ = name
      exact List.takeWhile_append_dropWhile isUpperAZ name
    · rw [if_neg hb] at h
      exact absurd h (by simp)
  · rw [if_neg hm] at h
    exact absurd h (by simp)

/-! ### Transaction lemmas -/

/-- When nothing depends on the edited position and the tentative graph is
acyclic, `__compute_dependencies` returns no dependents. -/
theorem computeDependencies_ok_nil (pos : Pos) (g : DiGraph)
    (htopo : g.topologicalSort.isSome = true)
    (hdep : ∀ u, (u, pos) ∉ g.edges) :
    computeDependencies pos g = .ok [] := by
  unfold computeDependencies
  match hts : g.topologicalSort with
  | none =>
    rw [hts] at htopo
    simp at htopo
  | some order =>
    by_cases hmem : pos ∈ g.nodes
    · simp only [hmem, if_true]
      rw [DiGraph.descendantsOfReverse_eq_nil g pos hdep]
      have : order.reverse.filter
          (fun v => decide (v ∈ ([] : List Pos))) = [] := by
        apply List.filter_eq_nil_iff.mpr
        intro a _
        simp
      rw [this]
    · simp [hmem]

/-- Reduction lemmas for the `Except` monad operations `tryUpdateE`
elaborates to. -/
theorem exceptBind_ok {ε α β : Type} (a : α) (f : α → Except ε β) :
    (Except.ok a >>= f) = f a := rfl

theorem exceptBind_error {ε α β : Type} (e : ε) (f : α → Except ε β) :
    ((Except.error e : Except ε α) >>= f) = Except.error e := rfl

theorem exceptPure {ε α : Type} (a : α) :
    (pure a : Except ε α) = Except.ok a := rfl

namespace Store

theorem lookup_erase_self (s : Store α) (k : Pos) :
    (s.erase k).lookup k = none := by
  induction s with
  | nil => rfl
  | cons e t ih =>
    by_cases he : e.1 = k
    · simp [erase, he, ih]
    · simp [erase, lookup, he, ih]

theorem mem_keys_insert_or (s : Store α) (k k' : Pos) (v : α)
    (h : k' ∈ (s.insert k v).map Prod.fst) :
    k' ∈ s.map Prod.fst ∨ k' = k := by
  induction s with
  | nil =>
    simp only [insert, List.map_cons, List.map_nil, List.mem_singleton] at h
    exact Or.inr h
  | cons e t ih =>
    by_cases he : e.1 = k
    · simp only [insert, he, if_true, List.map_cons, List.mem_cons] at h
      rcases h with h | h
      · exact Or.inr h
      · exact Or.inl (List.mem_cons_of_mem _ h)
    · simp only [insert, he, if_false, List.map_cons, List.mem_cons] at h
      rcases h with h | h
      · exact Or.inl (by simp [h])
      · rcases ih h with hh | hh
        · exact Or.inl (List.mem_cons_of_mem _ hh)
        · exact Or.inr hh

theorem keys_nodup_insert (s : Store α) (k : Pos) (v : α)
    (h : (s.map Prod.fst).Nodup) : ((s.insert k v).map Prod.fst).Nodup := by
  induction s with
  | nil => simp [insert]
  | cons e t ih =>
    simp only [List.map_cons, List.nodup_cons] at h
    by_cases he : e.1 = k
    · simp only [insert, he, if_true, List.map_cons, List.nodup_cons]
      exact ⟨by rw [← he]; exact h.1, h.2⟩
    · simp only [insert, he, if_false, List.map_cons, List.nodup_cons]
      refine ⟨?_, ih h.2⟩
      intro hmem
      rcases mem_keys_insert_or t k e.1 v hmem with hh | hh
      · exact h.1 hh
      · exact he hh

theorem lookup_insertAll_mem (l : Store α) (p : Pos) (v : α)
    (hnd : (l.map Prod.fst).Nodup) (hm : (p, v) ∈ l) :
    ∀ s : Store α, (s.insertAll l).lookup p = some v := by
  induction l with
  | nil => simp at hm
  | cons e t ih =>
    intro s
    simp only [List.map_cons, List.nodup_cons] at hnd
    simp only [insertAll, List.foldl_cons]
    rw [show (List.foldl (fun acc e => Store.insert acc e.1 e.2)
      (s.insert e.1 e.2) t) = (s.insert e.1 e.2).insertAll t from rfl]
    rcases List.mem_cons.mp hm with hm1 | hm1
    · have h1 : e.1 = p := by rw [← hm1]
      have h2 : e.2 = v := by rw [← hm1]
      rw [lookup_insertAll_of_not_mem _ _ _ (by rw [← h1]; exact hnd.1)]
      rw [← h1, ← h2]
      exact lookup_insert_self s e.1 e.2
    · exact ih hnd.2 hm1 (s.insert e.1 e.2)

end Store

namespace DiGraph

theorem edges_addNode (g : DiGraph) (p : Pos) :
    (g.addNode p).edges = g.edges := by
  unfold addNode
  split <;> rfl

theorem mem_edges_addEdge (g : DiGraph) (a e : Pos × Pos) (h : e ≠ a) :
    (e ∈ (g.addEdge a).edges ↔ e ∈ g.edges) := by
  unfold addEdge
  split
  · rw [edges_addNode, edges_addNode]
  · show e ∈ ((g.addNode a.1).addNode a.2).edges ++ [a] ↔ e ∈ g.edges
    rw [edges_addNode, edges_addNode]
    simp [h]

theorem mem_edges_addEdges (g : DiGraph) (es : List (Pos × Pos))
    (e : Pos × Pos) (h : e ∉ es) :
    (e ∈ (g.addEdges es).edges ↔ e ∈ g.edges) := by
  induction es generalizing g with
  | nil => exact Iff.rfl
  | cons a t ih =>
    simp only [List.mem_cons, not_or] at h
    show e ∈ (List.foldl addEdge g (a :: t)).edges ↔ e ∈ g.edges
    simp only [List.foldl_cons]
    rw [show List.foldl addEdge (g.addEdge a) t = (g.addEdge a).addEdges t
      from rfl]
    exact (ih (g.addEdge a) (by intro hh; exact h.2 hh)).trans
      (mem_edges_addEdge g a e h.1)

end DiGraph

/-- The tentative graph differs from the committed one only in the edited
position's outgoing edges: every edge not sourced at the edited position is
in the tentative graph exactly when it is in the committed graph. -/
theorem getUpdatedGraph_edges_off (g : DiGraph) (pos : Pos) (deps : List Pos)
    (e : Pos × Pos) (h : e.1 ≠ pos) :
    (e ∈ (getUpdatedGraph g pos deps).edges ↔ e ∈ g.edges) := by
  unfold getUpdatedGraph DiGraph.removeIsolates
  have hnot : e ∉ deps.map (fun d => (pos, d)) := by
    intro hmem
    rcases List.mem_map.mp hmem with ⟨d, _, hd⟩
    apply h
    rw [← hd]
  rw [DiGraph.mem_edges_addEdges _ _ _ hnot]
  show e ∈ g.edges.filter (fun e => decide (e.1 ≠ pos)) ↔ e ∈ g.edges
  simp [List.mem_filter, h]

/-- The re-evaluation loop only adds keys to `positions_to_update`. -/
theorem reevalDependents_keys (fuel : Nat) (cells : Store Cell) :
    ∀ (deps : List Pos) (cache ptu ptu' cache' : Store Value),
      reevalDependents fuel cells deps cache ptu = .ok (ptu', cache') →
      ∀ k, k ∈ ptu.map Prod.fst → k ∈ ptu'.map Prod.fst := by
  intro deps
  induction deps with
  | nil =>
    intro cache ptu ptu' cache' h k hk
    unfold reevalDependents at h
    have hinj := Except.ok.inj h
    have hp : ptu = ptu' := by
      have := congrArg Prod.fst hinj
      simpa using this
    rw [← hp]
    exact hk
  | cons p rest ih =>
    intro cache ptu ptu' cache' h k hk
    unfold reevalDependents at h
    revert h
    cases hev : evaluatePosition fuel cells p cache with
    | error e => intro h; exact Except.noConfusion h
    | ok vc =>
      intro h
      exact ih vc.2 (ptu.insert p vc.1) ptu' cache' h k
        (Store.mem_keys_insert ptu k p vc.1 hk)

/-- `positions_to_update` never acquires a duplicate key. -/
theorem reevalDependents_keys_nodup (fuel : Nat) (cells : Store Cell) :
    ∀ (deps : List Pos) (cache ptu ptu' cache' : Store Value),
      reevalDependents fuel cells deps cache ptu = .ok (ptu', cache') →
      (ptu.map Prod.fst).Nodup → (ptu'.map Prod.fst).Nodup := by
  intro deps
  induction deps with
  | nil =>
    intro cache ptu ptu' cache' h hnd
    unfold reevalDependents at h
    have hinj := Except.ok.inj h
    have hp : ptu = ptu' := by
      have := congrArg Prod.fst hinj
      simpa using this
    rw [← hp]
    exact hnd
  | cons p rest ih =>
    intro cache ptu ptu' cache' h hnd
    unfold reevalDependents at h
    revert h
    cases hev : evaluatePosition fuel cells p cache with
    | error e => intro h; exact Except.noConfusion h
    | ok vc =>
      intro h
      exact ih vc.2 (ptu.insert p vc.1) ptu' cache' h
        (Store.keys_nodup_insert ptu p vc.1 hnd)

/-- Shape of a successful `try_update` transaction: the edited position is
reported in the returned mapping; the committed cell and value stores agree
with the previous state everywhere outside the reported positions; edge
changes of the committed graph are confined to the edited position's
outgoing edges; and the reported mapping reflects the committed state (a
reported value is the committed cached value, a reported `None` means the
cell and its cached value are absent). -/
theorem tryUpdateE_ok_shape (s : SheetState) (row col : Int) (w : List Char)
    (s' : SheetState) (delta : Store (Option Value))
    (h : tryUpdateE s row col w = .ok (s', delta)) :
    (row, col) ∈ delta.map Prod.fst ∧
    (∀ q : Pos, q ∉ delta.map Prod.fst →
      s'.cells.lookup q = s.cells.lookup q ∧
      s'.values.lookup q = s.values.lookup q) ∧
    (∀ e : Pos × Pos, e.1 ≠ (row, col) →
      (e ∈ s'.graph.edges ↔ e ∈ s.graph.edges)) ∧
    (∀ (p : Pos) (v : Value), (p, some v) ∈ delta →
      s'.values.lookup p = some v) ∧
    (∀ p : Pos, (p, none) ∈ delta →
      s'.values.lookup p = none ∧ s'.cells.lookup p = none) := by
  unfold tryUpdateE at h
  cases hpc : parseContent w with
  | error e => rw [hpc, exceptBind_error] at h; exact Except.noConfusion h
  | ok content =>
    rw [hpc, exceptBind_ok] at h
    cases hdeps : contentDependencies content with
    | error e => rw [hdeps, exceptBind_error] at h; exact Except.noConfusion h
    | ok deps =>
      rw [hdeps, exceptBind_ok] at h
      cases hcd : computeDependencies (row, col)
          (getUpdatedGraph s.graph (row, col) deps) with
      | error e => rw [hcd, exceptBind_error] at h; exact Except.noConfusion h
      | ok dependents =>
        rw [hcd, exceptBind_ok] at h
        by_cases hempty : content = Content.str []
        · rw [if_pos hempty] at h
          by_cases hdnil : dependents = []
          · rw [if_pos hdnil, exceptPure] at h
            have hinj := Except.ok.inj h
            have hs' : s' = { s with cells := s.cells.erase (row, col),
                                     values := s.values.erase (row, col) } := by
              have := congrArg Prod.fst hinj
              simpa using this.symm
            have hdelta : delta = [((row, col), none)] := by
              have := congrArg Prod.snd hinj
              simpa using this.symm
            subst hs' hdelta
            refine ⟨by simp, ?_, ?_, ?_, ?_⟩
            · intro q hq
              simp only [List.map_cons, List.map_nil, List.mem_singleton] at hq
              exact ⟨Store.lookup_erase_ne _ _ _ hq,
                     Store.lookup_erase_ne _ _ _ hq⟩
            · intro e _
              exact Iff.rfl
            · intro p v hmem
              simp at hmem
            · intro p hmem
              simp only [List.mem_singleton, Prod.mk.injEq, and_true] at hmem
              rw [hmem]
              exact ⟨Store.lookup_erase_self _ _, Store.lookup_erase_self _ _⟩
          · rw [if_neg hdnil] at h
            exact Except.noConfusion h
        · rw [if_neg hempty] at h
          cases hev : evalContent s.cells content with
          | error e => rw [hev, exceptBind_error] at h; exact Except.noConfusion h
          | ok vc =>
            rw [hev, exceptBind_ok] at h
            cases hre : reevalDependents evalFuel s.cells dependents
                (vc.2.insert (row, col) vc.1) [((row, col), vc.1)] with
            | error e =>
              rw [hre, exceptBind_error] at h
              exact Except.noConfusion h
            | ok pc =>
              rw [hre, exceptBind_ok, exceptPure] at h
              have hinj := Except.ok.inj h
              have hs' : s' = { cells := s.cells.insert (row, col) ⟨w, content⟩,
                                values := s.values.insertAll pc.1,
                                graph := getUpdatedGraph s.graph (row, col) deps } := by
                have := congrArg Prod.fst hinj
                simpa using this.symm
              have hdelta : delta = pc.1.map (fun e => (e.1, some e.2)) := by
                have := congrArg Prod.snd hinj
                simpa using this.symm
              have hkeys : delta.map Prod.fst = pc.1.map Prod.fst := by
                rw [hdelta, List.map_map]
                rfl
              have hposmem : (row, col) ∈ pc.1.map Prod.fst := by
                apply reevalDependents_keys evalFuel s.cells dependents
                  (vc.2.insert (row, col) vc.1) [((row, col), vc.1)] pc.1 pc.2
                  (by rw [hre])
                simp
              subst hs'
              have hnodup : (pc.1.map Prod.fst).Nodup := by
                apply reevalDependents_keys_nodup evalFuel s.cells dependents
                  (vc.2.insert (row, col) vc.1) [((row, col), vc.1)] pc.1 pc.2
                  (by rw [hre])
                simp
              refine ⟨?_, ?_, ?_, ?_, ?_⟩
              · rw [hkeys]
                exact hposmem
              · intro q hq
                rw [hkeys] at hq
                have hqpos : q ≠ (row, col) := by
                  intro hh
                  rw [hh] at hq
                  exact hq hposmem
                exact ⟨Store.lookup_insert_ne _ _ _ _ hqpos,
                       Store.lookup_insertAll_of_not_mem _ _ _ hq⟩
              · intro e he
                exact getUpdatedGraph_edges_off s.graph (row, col) deps e he
              · intro p v hmem
                rw [hdelta] at hmem
                rcases List.mem_map.mp hmem with ⟨x, hx, hxe⟩
                have hp : x.1 = p := congrArg Prod.fst hxe
                have hv : x.2 = v := by
                  have := congrArg Prod.snd hxe
                  exact Option.some.inj this
                have hmem2 : (p, v) ∈ pc.1 := by
                  rw [← hp, ← hv]
                  exact hx
                exact Store.lookup_insertAll_mem pc.1 p v hnodup hmem2 s.values
              · intro p hmem
                rw [hdelta] at hmem
                rcases List.mem_map.mp hmem with ⟨x, hx, hxe⟩
                have := congrArg Prod.snd hxe
                simp at this

/-- In-edges of the edited position survive into the tentative graph only if
they were in the committed graph (removing out-edges and adding no edge
cannot create one). -/
theorem no_in_edges_tentative (g : DiGraph) (p : Pos)
    (h : ∀ u, (u, p) ∉ g.edges) :
    ∀ u, (u, p) ∉ (getUpdatedGraph g p []).edges := by
  intro u hmem
  apply h u
  simp only [getUpdatedGraph, DiGraph.removeIsolates, DiGraph.addEdges,
    List.map_nil, List.foldl_nil, DiGraph.removeOutEdges] at hmem
  exact (List.mem_filter.mp hmem).1

/-! ### The claims -/

/-- C1: for every state, position and raw input, `try_update` either succeeds
with `(true, Δ, None)` — the edited position is reported in `Δ`, the
committed `CellStore` and `ValueCache` are unchanged at every position
outside `Δ`, the committed `DependencyGraph`'s edge changes are confined to
the edited position's outgoing edges, and `Δ` reflects the committed state
(a reported value is the committed cached value; a reported `None` means the
cell and its cached value are gone) — or fails with `(false, {}, reason)`
and the committed state (all three components) exactly as before the call;
every exception raised by the transaction body is caught, so no call
propagates an exception. -/
theorem tryUpdate_transaction_contract (s : SheetState) (row col : Int)
    (w : List Char) (res : UpdateResult) (h : tryUpdate s row col w = res) :
    (res.ok = false → res.state = s ∧ res.changed = [] ∧
      res.reason.isSome = true) ∧
    (res.ok = true → res.reason = none ∧
      (row, col) ∈ res.changed.map Prod.fst ∧
      (∀ q : Pos, q ∉ res.changed.map Prod.fst →
        res.state.cells.lookup q = s.cells.lookup q ∧
        res.state.values.lookup q = s.values.lookup q) ∧
      (∀ e : Pos × Pos, e.1 ≠ (row, col) →
        (e ∈ res.state.graph.edges ↔ e ∈ s.graph.edges)) ∧
      (∀ (p : Pos) (v : Value), (p, some v) ∈ res.changed →
        res.state.values.lookup p = some v) ∧
      (∀ p : Pos, (p, none) ∈ res.changed →
        res.state.values.lookup p = none ∧
        res.state.cells.lookup p = none)) := by
  unfold tryUpdate at h
  revert h
  cases hE : tryUpdateE s row col w with
  | error e =>
    intro h
    rw [← h]
    constructor
    · intro
      exact ⟨rfl, rfl, rfl⟩
    · intro hok
      simp at hok
  | ok sd =>
    intro h
    rw [← h]
    constructor
    · intro hok
      simp at hok
    · intro
      have hshape := tryUpdateE_ok_shape s row col w sd.1 sd.2 (by rw [hE])
      exact ⟨rfl, hshape.1, hshape.2.1, hshape.2.2.1, hshape.2.2.2.1,
        hshape.2.2.2.2⟩

/-- Witness for C1 at a concrete input: updating `A1` with `"1"` on the empty
sheet. -/
theorem tryUpdate_transaction_contract_witness :
    ((tryUpdate emptySheet 0 0 ['1']).ok = false →
      (tryUpdate emptySheet 0 0 ['1']).state = emptySheet ∧
      (tryUpdate emptySheet 0 0 ['1']).changed = [] ∧
      (tryUpdate emptySheet 0 0 ['1']).reason.isSome = true) ∧
    ((tryUpdate emptySheet 0 0 ['1']).ok = true →
      (tryUpdate emptySheet 0 0 ['1']).reason = none ∧
      ((0 : Int), (0 : Int)) ∈ (tryUpdate emptySheet 0 0 ['1']).changed.map Prod.fst ∧
      (∀ q : Pos, q ∉ (tryUpdate emptySheet 0 0 ['1']).changed.map Prod.fst →
        (tryUpdate emptySheet 0 0 ['1']).state.cells.lookup q
          = emptySheet.cells.lookup q ∧
        (tryUpdate emptySheet 0 0 ['1']).state.values.lookup q
          = emptySheet.values.lookup q) ∧
      (∀ e : Pos × Pos, e.1 ≠ ((0 : Int), (0 : Int)) →
        (e ∈ (tryUpdate emptySheet 0 0 ['1']).state.graph.edges ↔
          e ∈ emptySheet.graph.edges)) ∧
      (∀ (p : Pos) (v : Value),
        (p, some v) ∈ (tryUpdate emptySheet 0 0 ['1']).changed →
        (tryUpdate emptySheet 0 0 ['1']).state.values.lookup p = some v) ∧
      (∀ p : Pos, (p, none) ∈ (tryUpdate emptySheet 0 0 ['1']).changed →
        (tryUpdate emptySheet 0 0 ['1']).state.values.lookup p = none ∧
        (tryUpdate emptySheet 0 0 ['1']).state.cells.lookup p = none)) :=
  tryUpdate_transaction_contract emptySheet 0 0 ['1']
    (tryUpdate emptySheet 0 0 ['1']) rfl

/-- C3: whenever parsing and dependency extraction succeed and the tentative
dependency graph built for the update contains a cycle anywhere — including a
direct self-loop and cycles not passing through the edited cell —
`try_update` returns `(false, {}, DEPENDENCIES_CYCLE)` and the committed
state is unchanged. -/
theorem tryUpdate_rejects_cycles (s : SheetState) (row col : Int)
    (w : List Char) (content : Content) (deps : List Pos)
    (hpc : parseContent w = .ok content)
    (hdeps : contentDependencies content = .ok deps)
    (hcyc : DiGraph.HasCycle (getUpdatedGraph s.graph (row, col) deps)) :
    tryUpdate s row col w = ⟨false, [], some .DEPENDENCIES_CYCLE, s⟩ := by
  have htopo := DiGraph.topologicalSort_eq_none_of_hasCycle _ hcyc
  unfold tryUpdate tryUpdateE
  rw [hpc, exceptBind_ok, hdeps, exceptBind_ok]
  unfold computeDependencies
  rw [htopo]
  rfl

/-- Witness for C3: `A1 = "=A1"` on the empty sheet creates the self-loop
`A1 → A1` in the tentative graph and is rejected with
`DEPENDENCIES_CYCLE`. -/
theorem tryUpdate_rejects_cycles_witness :
    tryUpdate emptySheet 0 0 ("=A1".toList)
      = ⟨false, [], some .DEPENDENCIES_CYCLE, emptySheet⟩ :=
  tryUpdate_rejects_cycles emptySheet 0 0 ("=A1".toList)
    (.node (.mk0 (.str ['A', '1']))) [(0, 0)] (by decide) (by decide)
    ⟨[(0, 0)], by decide, by decide, by decide⟩

/-- C10: deleting (empty raw string) a position that has no stored cell, no
cached value, and no dependents (no in-edge in the committed, hence in the
tentative, graph — the committed graph being acyclic, as every reachable
committed graph is) succeeds with `(true, {position: None}, none)` and
leaves the `CellStore`, `ValueCache` and `DependencyGraph` exactly
unchanged. -/
theorem tryUpdate_delete_missing_cell (s : SheetState) (p : Pos)
    (hcell : s.cells.lookup p = none) (hval : s.values.lookup p = none)
    (hdep : ∀ u, (u, p) ∉ s.graph.edges)
    (htopo : (getUpdatedGraph s.graph p []).topologicalSort.isSome = true) :
    tryUpdate s p.1 p.2 [] = ⟨true, [(p, none)], none, s⟩ := by
  unfold tryUpdate tryUpdateE
  rw [show parseContent [] = .ok (.str []) from rfl, exceptBind_ok]
  rw [show contentDependencies (.str []) = .ok [] from rfl, exceptBind_ok]
  rw [show ((p.1, p.2) : Pos) = p from rfl]
  rw [computeDependencies_ok_nil p _ htopo (no_in_edges_tentative s.graph p hdep),
    exceptBind_ok]
  rw [if_pos rfl, if_pos rfl, exceptPure]
  rw [Store.erase_of_lookup_none s.cells p hcell,
    Store.erase_of_lookup_none s.values p hval]

/-- Witness for C10: deleting the absent cell `A1` of the empty sheet. -/
theorem tryUpdate_delete_missing_cell_witness :
    tryUpdate emptySheet 0 0 [] = ⟨true, [((0, 0), none)], none, emptySheet⟩ :=
  tryUpdate_delete_missing_cell emptySheet (0, 0) rfl rfl
    (by intro u; simp [emptySheet, DiGraph.empty]) (by decide)

/-- C5 (counterexample): the out-of-bounds position `(20, 0)` (row 20 ≥
`ROWS_NUM`) updated with the plain number `"5"` is *not* rejected with
`BadName`: the call succeeds and the cell is stored. -/
theorem tryUpdate_out_of_bounds_counterexample :
    positionInSheetRange (20, 0) = false ∧
    (tryUpdate emptySheet 20 0 ['5']).ok = true ∧
    (tryUpdate emptySheet 20 0 ['5']).reason = none ∧
    (tryUpdate emptySheet 20 0 ['5']).state.cells.lookup (20, 0)
      = some ⟨['5'], .num 5⟩ := by
  refine ⟨by decide, by decide, by decide, by decide⟩

/-- C5 (amended): `try_update` performs no bounds check on the edited
position: from any state in which nothing depends on the position and the
tentative graph is acyclic, an out-of-bounds position updated with a
parseable number is stored and the call succeeds (`BadName` applies only to
cell and range names appearing inside formulas, via
`__cell_name_to_location` / `__calculate_range_positions`). -/
theorem tryUpdate_numeric_out_of_bounds_succeeds (s : SheetState)
    (row col : Int) (w : List Char) (q : ℚ)
    (hoob : positionInSheetRange (row, col) = false)
    (hnum : tryParseNumber w = some q)
    (hdep : ∀ u, (u, (row, col)) ∉ s.graph.edges)
    (htopo : (getUpdatedGraph s.graph (row, col) []).topologicalSort.isSome
      = true) :
    tryUpdate s row col w =
      ⟨true, [((row, col), some (.num q))], none,
       { cells := s.cells.insert (row, col) ⟨w, .num q⟩,
         values := s.values.insert (row, col) (.num q),
         graph := getUpdatedGraph s.graph (row, col) [] }⟩ := by
  unfold tryUpdate tryUpdateE
  rw [show parseContent w = .ok (.num q) from by
    unfold parseContent
    rw [hnum]]
  rw [exceptBind_ok]
  rw [show contentDependencies (.num q) = .ok [] from rfl, exceptBind_ok]
  rw [computeDependencies_ok_nil (row, col) _ htopo
    (no_in_edges_tentative s.graph (row, col) hdep), exceptBind_ok]
  rw [if_neg (by simp)]
  rw [show evalContent s.cells (.num q) = .ok (.num q, []) from rfl,
    exceptBind_ok]
  rfl

/-- Witness for the amended C5 on the empty sheet at `(20, 0)` with `"5"`. -/
theorem tryUpdate_numeric_out_of_bounds_succeeds_witness :
    tryUpdate emptySheet 20 0 ['5'] =
      ⟨true, [((20, 0), some (.num 5))], none,
       { cells := emptySheet.cells.insert (20, 0) ⟨['5'], .num 5⟩,
         values := emptySheet.values.insert (20, 0) (.num 5),
         graph := getUpdatedGraph emptySheet.graph (20, 0) [] }⟩ :=
  tryUpdate_numeric_out_of_bounds_succeeds emptySheet 20 0 ['5'] 5
    (by decide) (by decide) (by intro u; simp [emptySheet, DiGraph.empty])
    (by decide)

/-- C6 (counterexample): for the two-letter column name `"BA"` the code
computes index 27, while the claimed formula `Σ digit(name[i]) · 26^i`
(low-order digit leftmost, `A..Z ↦ 0..25`) gives 1. -/
theorem columnNameToIndex_counterexample :
    columnNameToIndex ['B', 'A'] = 27 ∧
    (∑ i in Finset.range 2, letterVal (['B', 'A'].getD i 'A') * 26 ^ i) = 1 ∧
    (27 : Nat) ≠ 1 := by
  refine ⟨by decide, ?_, by decide⟩
  rw [Finset.sum_range_succ, Finset.sum_range_succ, Finset.sum_range_zero]
  decide

/-- C6 (amended): the column index the code computes is
`Σ (i · 26 + digit(name[i]))`; it agrees with the claimed positional formula
exactly on one-letter names (hence on every in-bounds column), and the
two-letter name `"BA"` denotes column index 27, not 1. -/
theorem columnNameToIndex_characterization :
    (∀ name : List Char, columnNameToIndex name
       = ∑ i in Finset.range name.length,
           (i * 26 + letterVal (name.getD i 'A'))) ∧
    (∀ c : Char, columnNameToIndex [c] = letterVal c) ∧
    columnNameToIndex ['B', 'A'] = 27 :=
  ⟨columnNameToIndex_eq_weighted_sum, columnNameToIndex_single, by decide⟩

/-- C7 (counterexample): `"A01"` is letters-then-digits and denotes the
in-bounds position `(0, 0)`, but `get_cell_name` prints that position as
`"A1"`, so the name round-trip fails on it. -/
theorem cellName_roundtrip_counterexample :
    cellNameToLocation ['A', '0', '1'] = .ok (0, 0) ∧
    getCellName 0 0 = ['A', '1'] ∧
    (['A', '1'] : List Char) ≠ ['A', '0', '1'] := by
  refine ⟨by decide, by decide, by decide⟩

/-- C7 (amended): `name_to_position ∘ position_to_name` is the identity on
every in-bounds position, and `position_to_name ∘ name_to_position`
reproduces every well-formed in-bounds name whose row digits carry no
leading zero (leading zeros — e.g. `"A01"` — denote the same position as
their canonical spelling and are the only failures). -/
theorem cellName_roundtrip :
    (∀ r : Nat, r < 20 → ∀ c : Nat, c < 10 →
      cellNameToLocation (getCellName (c : Int) (r : Int))
        = .ok ((r : Int), (c : Int))) ∧
    (∀ (name : List Char) (r c : Int), cellNameToLocation name = .ok (r, c) →
      (cellDigits name).head? ≠ some '0' → getCellName c r = name) := by
  constructor
  · decide
  · intro name r c h hz
    exact getCellName_of_cellNameToLocation name r c h hz

/-- Witness for C7 at concrete inputs: position `(5, 0)` and name `"A6"`. -/
theorem cellName_roundtrip_witness :
    cellNameToLocation (getCellName ((0 : Nat) : Int) ((5 : Nat) : Int))
      = .ok (((5 : Nat) : Int), ((0 : Nat) : Int)) ∧
    getCellName 0 5 = ['A', '6'] :=
  ⟨cellName_roundtrip.1 5 (by decide) 0 (by decide),
   cellName_roundtrip.2 ['A', '6'] 5 0 (by decide) (by decide)⟩

/-- C8: parsing and evaluating through the full pipeline honours precedence,
right-associativity of `^` and the contextual unary/binary reading of `-`:
`1+2*3 = 7`, `2^3^2 = 512`, `-3+4 = 1` and `5--3 = 8`. -/
theorem operator_precedence_examples :
    (tryUpdate emptySheet 0 0 ("=1+2*3".toList)).changed
      = [((0, 0), some (.num 7))] ∧
    (tryUpdate emptySheet 0 0 ("=2^3^2".toList)).changed
      = [((0, 0), some (.num 512))] ∧
    (tryUpdate emptySheet 0 0 ("=-3+4".toList)).changed
      = [((0, 0), some (.num 1))] ∧
    (tryUpdate emptySheet 0 0 ("=5--3".toList)).changed
      = [((0, 0), some (.num 8))] := by
  refine ⟨by decide, by decide, by decide, by decide⟩

/-- C2 (failing input): after `A1 := "1"`, `B1 := "=A1+1"` and the
successful deletion `B1 := ""`, the delete branch has removed `B1`'s cell
but has *not* committed the tentative graph: the stale edge `B1 → A1`
remains in the committed graph, so the subsequent deletion `A1 := ""` —
which the claim (and the spec's own deletion-protection test) says succeeds
— fails with `EVALUATION_FAILURE`. -/
theorem delete_does_not_commit_graph :
    (tryUpdate (tryUpdate (tryUpdate emptySheet 0 0 ['1']).state 0 1
        ("=A1+1".toList)).state 0 1 []).ok = true ∧
    (tryUpdate (tryUpdate (tryUpdate emptySheet 0 0 ['1']).state 0 1
        ("=A1+1".toList)).state 0 1 []).state.cells.lookup (0, 1) = none ∧
    (tryUpdate (tryUpdate (tryUpdate emptySheet 0 0 ['1']).state 0 1
        ("=A1+1".toList)).state 0 1 []).state.graph.edges
      = [((0, 1), (0, 0))] ∧
    (tryUpdate (tryUpdate (tryUpdate (tryUpdate emptySheet 0 0 ['1']).state
        0 1 ("=A1+1".toList)).state 0 1 []).state 0 0 []).reason
      = some .EVALUATION_FAILURE := by
  refine ⟨by decide, by decide, by decide, by decide⟩

/-- C4 (failing input): after `B1 := "1"`, `A1 := "=B1"` and the successful
overwrite `A1 := "5"`, the committed graph still contains the nodes `A1` and
`B1` although it has no edges at all — `__remove_isolates` calls
`remove_edges_from` on the isolated *nodes*, which removes nothing, so
isolated positions are never pruned. -/
theorem committed_graph_retains_isolates :
    (tryUpdate (tryUpdate (tryUpdate emptySheet 0 1 ['1']).state 0 0
        ("=B1".toList)).state 0 0 ['5']).ok = true ∧
    (tryUpdate (tryUpdate (tryUpdate emptySheet 0 1 ['1']).state 0 0
        ("=B1".toList)).state 0 0 ['5']).state.graph.edges = [] ∧
    ((0 : Int), (0 : Int)) ∈ (tryUpdate (tryUpdate (tryUpdate emptySheet 0 1
        ['1']).state 0 0 ("=B1".toList)).state 0 0 ['5']).state.graph.nodes := by
  refine ⟨by decide, by decide, by decide⟩

/-- C9 (failing input): with `A1` holding the literal string `"hi"`, the
formula `"=1+A1"` — whose *right* operand resolves to a string — fails with
`UNEXPECTED_EXCEPTION` (a `TypeError` inside `BinaryOperator.calculate`,
because the check at `sheet.py` line 355 tests `left_val` twice and never
`right_val`), not with the claimed `EVALUATION_FAILURE`; the mirrored
formula `"=A1+1"` with the string on the left does fail with
`EVALUATION_FAILURE`. -/
theorem right_string_operand_gives_unexpected :
    tryUpdate (tryUpdate emptySheet 0 0 ("hi".toList)).state 0 1
        ("=1+A1".toList)
      = ⟨false, [], some .UNEXPECTED_EXCEPTION,
         (tryUpdate emptySheet 0 0 ("hi".toList)).state⟩ ∧
    (tryUpdate (tryUpdate emptySheet 0 0 ("hi".toList)).state 0 1
        ("=A1+1".toList)).reason = some .EVALUATION_FAILURE := by
  refine ⟨by decide, by decide⟩
